import Mathlib

/-!
Verification of the RFQ form component (`src/App.jsx`).

The component keeps a single form state (customer data, commercial terms,
uploaded file handles, line items) and mutates it through a fixed set of
handlers.  We embed the state record and every handler the claims touch as
executable Lean definitions, mirroring the JavaScript source: JS numbers
stored in `qty` are modelled by `JSNum` (a number, `NaN`, or `undefined`),
list indices coming from the UI are `Int` (JS numbers), and the JS
index-aware `map`/`filter` callbacks become `mapIdxFrom`/`filterIdxFrom`.
-/

namespace RFQ

/-- A JavaScript value stored in a line item's `qty` field: a (here integral)
number, `NaN`, or `undefined`. -/
inductive JSNum where
  | num (n : Int)
  | nan
  | undef
deriving DecidableEq, Repr

/-- `Number(x || 0)` as applied in `totalQty`: the falsy values `0`, `NaN`
and `undefined` all coerce to `0`; any other number is itself. -/
def JSNum.orZero : JSNum → Int
  | .num n => n
  | .nan => 0
  | .undef => 0

/-- JS truthiness test `!x` on a numeric field: `0`, `NaN` and `undefined`
are falsy. -/
def JSNum.falsy : JSNum → Bool
  | .num n => n = 0
  | .nan => true
  | .undef => true

/-- `Number(x)` on a value already numeric or missing: `undefined` becomes
`NaN`. -/
def JSNum.toNumber : JSNum → JSNum
  | .undef => .nan
  | x => x

/-- Whether the value is an actual number (not `NaN`, not `undefined`). -/
def JSNum.isNum : JSNum → Bool
  | .num _ => true
  | _ => false

/-- JS comparison `x <= 0`; false for `NaN`. -/
def jsLeZero : JSNum → Bool
  | .num n => n ≤ 0
  | .nan => false
  | .undef => false

/-- One requested part line (`DEFAULT_LINE_ITEM` shape in the source). -/
structure LineItem where
  partName : String
  material : String
  qty : JSNum
  tolerance : String
  surface : String
  heatTreatment : String
  notes : String
deriving DecidableEq, Repr

/-- `DEFAULT_LINE_ITEM`: all strings empty, `qty = 1`. -/
def DEFAULT_LINE_ITEM : LineItem :=
  { partName := ""
  , material := ""
  , qty := .num 1
  , tolerance := ""
  , surface := ""
  , heatTreatment := ""
  , notes := "" }

/-- A browser `File` handle: the core only ever reads `name`, `size` and
`type`; the raw bytes are carried as opaque `content` that no operation of
the component inspects. -/
structure FileHandle where
  name : String
  size : Int
  type : String
  content : List Nat
deriving DecidableEq, Repr

/-- The component's form state (`EMPTY_FORM` shape in the source). -/
structure FormState where
  company : String
  contact : String
  email : String
  phone : String
  address : String
  incoterms : String
  deliveryDate : String
  currency : String
  NDA : Bool
  shippingPreference : String
  files : List FileHandle
  lineItems : List LineItem
deriving DecidableEq, Repr

/-- `ACCEPTED_FILES`: the extension allow-list. -/
def ACCEPTED_FILES : List String :=
  [".step", ".stp", ".iges", ".igs", ".dxf", ".pdf", ".png", ".jpg", ".jpeg"]

/-- The `<select>` options offered for `incoterms`. -/
def INCOTERMS_OPTIONS : List String := ["EXW", "FCA", "CPT", "CIP", "DAP", "DDP"]

/-- The `<select>` options offered for `currency`. -/
def CURRENCY_OPTIONS : List String := ["EUR", "USD", "GBP", "AED", "INR"]

/-- The `<select>` options offered for `shippingPreference`. -/
def SHIPPING_OPTIONS : List String := ["Best Available", "Express", "Economy", "Abholung"]

/-- `EMPTY_FORM`: the initial (default) form state. -/
def EMPTY_FORM : FormState :=
  { company := ""
  , contact := ""
  , email := ""
  , phone := ""
  , address := ""
  , incoterms := "DAP"
  , deliveryDate := ""
  , currency := "EUR"
  , NDA := false
  , shippingPreference := "Best Available"
  , files := []
  , lineItems := [DEFAULT_LINE_ITEM] }

/-- JS `Array.prototype.map` with an index-aware callback, counting from
`n`. -/
def mapIdxFrom (g : Nat → α → α) : Nat → List α → List α
  | _, [] => []
  | n, x :: xs => g n x :: mapIdxFrom g (n + 1) xs

/-- JS `Array.prototype.filter` with an index-aware callback, counting from
`n`. -/
def filterIdxFrom (p : Nat → α → Bool) : Nat → List α → List α
  | _, [] => []
  | n, x :: xs =>
    if p n x then x :: filterIdxFrom p (n + 1) xs else filterIdxFrom p (n + 1) xs

/-- A partial line-item update, as passed to `updateLineItem` (the JS object
spread `{ ...li, ...patch }`): present fields override, absent fields keep
the old value. -/
structure LineItemPatch where
  partName : Option String := none
  material : Option String := none
  qty : Option JSNum := none
  tolerance : Option String := none
  surface : Option String := none
  heatTreatment : Option String := none
  notes : Option String := none
deriving DecidableEq, Repr

/-- `{ ...li, ...patch }`. -/
def applyPatch (p : LineItemPatch) (li : LineItem) : LineItem :=
  { partName := p.partName.getD li.partName
  , material := p.material.getD li.material
  , qty := p.qty.getD li.qty
  , tolerance := p.tolerance.getD li.tolerance
  , surface := p.surface.getD li.surface
  , heatTreatment := p.heatTreatment.getD li.heatTreatment
  , notes := p.notes.getD li.notes }

/-- `updateLineItem(index, patch)`: map over `lineItems`, patching the item
whose position equals `index` (a JS number, hence `Int`). -/
def updateLineItem (index : Int) (patch : LineItemPatch) (f : FormState) : FormState :=
  { f with lineItems :=
      (mapIdxFrom (fun i li => if (i : Int) = index then applyPatch patch li else li)
        0 f.lineItems) }

/-- `addLineItem()`: append a fresh default line item. -/
def addLineItem (f : FormState) : FormState :=
  { f with lineItems := f.lineItems ++ [DEFAULT_LINE_ITEM] }

/-- `removeLineItem(index)`: keep every item whose position differs from
`index`. -/
def removeLineItem (index : Int) (f : FormState) : FormState :=
  { f with lineItems :=
      (filterIdxFrom (fun i _ => !((i : Int) == index)) 0 f.lineItems) }

/-- `removeFile(idx)`: keep every file whose position differs from `idx`. -/
def removeFile (idx : Int) (f : FormState) : FormState :=
  { f with files := filterIdxFrom (fun i _ => !((i : Int) == idx)) 0 f.files }

/-- `String.prototype.toLowerCase`, character by character. -/
def jsToLower (s : String) : String :=
  ⟨s.data.map Char.toLower⟩

/-- `String.prototype.endsWith`: the suffix test on the underlying
characters. -/
def jsEndsWith (s suffix : String) : Bool :=
  List.isSuffixOf suffix.data s.data

/-- `f.name.toLowerCase().endsWith(ext)` for some allow-listed `ext`. -/
def fileAccepted (f : FileHandle) : Bool :=
  ACCEPTED_FILES.any fun ext => jsEndsWith (jsToLower f.name) ext

/-- `onFilesSelected(files)`: filter the batch by the extension allow-list
and append the valid ones (the rejected ones only trigger an alert). -/
def onFilesSelected (batch : List FileHandle) (f : FormState) : FormState :=
  { f with files := f.files ++ batch.filter fileAccepted }

/-- `totalQty`: `lineItems.reduce((s, li) => s + Number(li.qty || 0), 0)`. -/
def totalQty (f : FormState) : Int :=
  f.lineItems.foldl (fun s li => s + li.qty.orZero) 0

/-- The spec's derived total: the sum over all line items of `qty`,
a missing or non-numeric `qty` counting as 0. -/
def derivedTotalQtySpec (f : FormState) : Int :=
  (f.lineItems.map (fun li => li.qty.orZero)).sum

/-- The character class `\s` of JS regular expressions. -/
def jsWhitespace (c : Char) : Bool :=
  c = ' ' || c = '\t' || c = '\n' || c = '\r' || c = '\x0B' || c = '\x0C' ||
  c.val = 0xA0 || c.val = 0x1680 || (0x2000 ≤ c.val && c.val ≤ 0x200A) ||
  c.val = 0x2028 || c.val = 0x2029 || c.val = 0x202F || c.val = 0x205F ||
  c.val = 0x3000 || c.val = 0xFEFF

/-- `String.prototype.trim`: drop leading and trailing whitespace. -/
def jsTrim (s : String) : String :=
  ⟨((s.data.dropWhile jsWhitespace).reverse.dropWhile jsWhitespace).reverse⟩

/-- The character class `[^\s@]` of the e-mail pattern. -/
def isEmailChar (c : Char) : Bool :=
  !jsWhitespace c && !(c == '@')

/-- `/^[^\s@]+@[^\s@]+\.[^\s@]+$/.test(s)`.  Matching strings contain
exactly one `@` (all three groups exclude it), so the split at the first
`@` is forced; the domain part must consist of `[^\s@]` characters and
contain a `.` that is neither its first nor its last character. -/
def emailMatches (s : String) : Bool :=
  match s.data.dropWhile (fun c => !(c == '@')) with
  | [] => false
  | _ :: d =>
    !(s.data.takeWhile fun c => !(c == '@')).isEmpty &&
    (s.data.takeWhile fun c => !(c == '@')).all isEmailChar &&
    d.all isEmailChar && ((d.drop 1).dropLast).contains '.'

/-- The e-mail pattern `^[^\s@]+@[^\s@]+\.[^\s@]+$` read declaratively: the
string decomposes as a non-empty `[^\s@]` local part, an `@`, a non-empty
`[^\s@]` run, a `.`, and another non-empty `[^\s@]` run. -/
def emailRegexSpec (s : String) : Prop :=
  ∃ l d1 d2 : List Char,
    l ≠ [] ∧ d1 ≠ [] ∧ d2 ≠ [] ∧
    (∀ c ∈ l ++ d1 ++ d2, isEmailChar c = true) ∧
    s.data = l ++ '@' :: (d1 ++ '.' :: d2)

/-- Keys of the `errors` object produced by `validate` (field identities of
the violated rules). -/
inductive VKey where
  | company
  | contact
  | email
  | deliveryDate
  | lineItems
  | liPartName (i : Nat)
  | liQty (i : Nat)
deriving DecidableEq, Repr

/-- The per-line-item part of `validate` (`forEach` with index): at index
`i`, a blank `partName` yields `liPartName i` and a falsy or non-positive
`qty` yields `liQty i`. -/
def lineItemErrors : Nat → List LineItem → List VKey
  | _, [] => []
  | i, li :: rest =>
    ((if jsTrim li.partName = "" then [VKey.liPartName i] else []) ++
     (if li.qty.falsy || jsLeZero li.qty.toNumber then [VKey.liQty i] else [])) ++
    lineItemErrors (i + 1) rest

/-- `validate()`: every check runs unconditionally; the result is the list
of violated-rule keys (the source stores one message per key in `e`). -/
def validate (f : FormState) : List VKey :=
  (if jsTrim f.company = "" then [VKey.company] else []) ++
  (if jsTrim f.contact = "" then [VKey.contact] else []) ++
  (if !emailMatches f.email then [VKey.email] else []) ++
  (if f.deliveryDate = "" then [VKey.deliveryDate] else []) ++
  (if f.lineItems.isEmpty then [VKey.lineItems] else []) ++
  lineItemErrors 0 f.lineItems

/-- The user actions that can reach the state-mutating handlers from the
rendered UI.  Values chosen in a `<select>` are necessarily one of its
rendered options, which the guard on the three enum actions models. -/
inductive Action where
  | setCompany (v : String)
  | setContact (v : String)
  | setEmail (v : String)
  | setPhone (v : String)
  | setAddress (v : String)
  | setDeliveryDate (v : String)
  | setIncoterms (v : String)
  | setCurrency (v : String)
  | setShippingPreference (v : String)
  | setNDA (b : Bool)
  | updateLineItem (idx : Int) (patch : LineItemPatch)
  | addLineItem
  | removeLineItem (idx : Int)
  | filesSelected (batch : List FileHandle)
  | removeFile (idx : Int)
  | reset

/-- One UI event applied to the form state. -/
def step (a : Action) (f : FormState) : FormState :=
  match a with
  | .setCompany v => { f with company := v }
  | .setContact v => { f with contact := v }
  | .setEmail v => { f with email := v }
  | .setPhone v => { f with phone := v }
  | .setAddress v => { f with address := v }
  | .setDeliveryDate v => { f with deliveryDate := v }
  | .setIncoterms v => if v ∈ INCOTERMS_OPTIONS then { f with incoterms := v } else f
  | .setCurrency v => if v ∈ CURRENCY_OPTIONS then { f with currency := v } else f
  | .setShippingPreference v =>
      if v ∈ SHIPPING_OPTIONS then { f with shippingPreference := v } else f
  | .setNDA b => { f with NDA := b }
  | .updateLineItem idx patch => updateLineItem idx patch f
  | .addLineItem => addLineItem f
  | .removeLineItem idx => removeLineItem idx f
  | .filesSelected batch => onFilesSelected batch f
  | .removeFile idx => removeFile idx f
  | .reset => EMPTY_FORM

/-- A session: a sequence of UI events applied in order. -/
def run (acts : List Action) (f : FormState) : FormState :=
  acts.foldl (fun s a => step a s) f

/-- The `meta` envelope of a payload. -/
structure PayloadMeta where
  createdAt : String
  app : String
  version : Int
deriving DecidableEq, Repr

/-- A serialisable file record: `{ name, size, type }` only. -/
structure SFile where
  name : String
  size : Int
  type : String
deriving DecidableEq, Repr

/-- The payload produced by `buildPayload`: the `meta` envelope, every form
field, and metadata-only file records. -/
structure Payload where
  meta : PayloadMeta
  company : String
  contact : String
  email : String
  phone : String
  address : String
  incoterms : String
  deliveryDate : String
  currency : String
  NDA : Bool
  shippingPreference : String
  files : List SFile
  lineItems : List LineItem
deriving DecidableEq, Repr

/-- `toSerializableFiles(files)`: project each handle to `{ name, size,
type }`. -/
def toSerializableFiles (files : List FileHandle) : List SFile :=
  files.map fun f => { name := f.name, size := f.size, type := f.type }

/-- `buildPayload()`: `{ meta: {createdAt, app, version: 1}, ...form,
files: toSerializableFiles(form.files) }`.  The current timestamp
(`new Date().toISOString()`) is passed in as `now`. -/
def buildPayload (now : String) (f : FormState) : Payload :=
  { meta := { createdAt := now, app := "ManufacturingRFQApp", version := 1 }
  , company := f.company
  , contact := f.contact
  , email := f.email
  , phone := f.phone
  , address := f.address
  , incoterms := f.incoterms
  , deliveryDate := f.deliveryDate
  , currency := f.currency
  , NDA := f.NDA
  , shippingPreference := f.shippingPreference
  , files := toSerializableFiles f.files
  , lineItems := f.lineItems }

/-- JSON values as produced by `JSON.stringify` and consumed by
`JSON.parse` (the round trip between the two is the identity on this
abstract syntax; `NaN` serialises as `null`). -/
inductive Json where
  | str (s : String)
  | num (n : Int)
  | bool (b : Bool)
  | null
  | arr (xs : List Json)
  | obj (fields : List (String × Json))
deriving Repr

/-- `JSON.stringify` on a `qty` value: numbers stay numbers, `NaN`
serialises as `null` (an `undefined` member would be dropped; we also model
it as `null`). -/
def encodeQty : JSNum → Json
  | .num n => .num n
  | .nan => .null
  | .undef => .null

/-- A line item as serialised inside the payload. -/
def encodeLineItem (li : LineItem) : Json :=
  .obj
    [ ("partName", .str li.partName)
    , ("material", .str li.material)
    , ("qty", encodeQty li.qty)
    , ("tolerance", .str li.tolerance)
    , ("surface", .str li.surface)
    , ("heatTreatment", .str li.heatTreatment)
    , ("notes", .str li.notes) ]

/-- A serialisable file record as serialised inside the payload. -/
def encodeSFile (f : SFile) : Json :=
  .obj [("name", .str f.name), ("size", .num f.size), ("type", .str f.type)]

/-- `JSON.stringify(buildPayload(...))` at the level of JSON values: the
key order is `meta` first, then the form fields in declaration order (the
overridden `files` keeps its position), then `lineItems`. -/
def encodePayload (p : Payload) : Json :=
  .obj
    [ ("meta", .obj
        [ ("createdAt", .str p.meta.createdAt)
        , ("app", .str p.meta.app)
        , ("version", .num p.meta.version) ])
    , ("company", .str p.company)
    , ("contact", .str p.contact)
    , ("email", .str p.email)
    , ("phone", .str p.phone)
    , ("address", .str p.address)
    , ("incoterms", .str p.incoterms)
    , ("deliveryDate", .str p.deliveryDate)
    , ("currency", .str p.currency)
    , ("NDA", .bool p.NDA)
    , ("shippingPreference", .str p.shippingPreference)
    , ("files", .arr (p.files.map encodeSFile))
    , ("lineItems", .arr (p.lineItems.map encodeLineItem)) ]

/-- Read back a serialised file record. -/
def decodeSFile : Json → Option SFile
  | .obj [("name", .str n), ("size", .num s), ("type", .str t)] =>
      some { name := n, size := s, type := t }
  | _ => none

/-- Read back a serialised line item (its `qty` must be an actual
number). -/
def decodeLineItem : Json → Option LineItem
  | .obj
      [ ("partName", .str a)
      , ("material", .str b)
      , ("qty", .num q)
      , ("tolerance", .str c)
      , ("surface", .str d)
      , ("heatTreatment", .str e)
      , ("notes", .str g) ] =>
      some
        { partName := a, material := b, qty := .num q, tolerance := c
        , surface := d, heatTreatment := e, notes := g }
  | _ => none

/-- Decode every element of a JSON array, failing if any element fails. -/
def decodeList (dec : Json → Option β) : List Json → Option (List β)
  | [] => some []
  | j :: js =>
    match dec j, decodeList dec js with
    | some b, some bs => some (b :: bs)
    | _, _ => none

/-- Expect a JSON string. -/
def asStr : Json → Option String
  | .str s => some s
  | _ => none

/-- Expect a JSON boolean. -/
def asBool : Json → Option Bool
  | .bool b => some b
  | _ => none

/-- Expect a JSON array. -/
def asArr : Json → Option (List Json)
  | .arr xs => some xs
  | _ => none

/-- Read back the `meta` envelope. -/
def decodeMeta : Json → Option PayloadMeta
  | .obj [("createdAt", .str c), ("app", .str a), ("version", .num v)] =>
      some { createdAt := c, app := a, version := v }
  | _ => none

/-- Read back a payload from its thirteen key-value members (in the order
`JSON.stringify` emits them). -/
def decodeMembers (km kc kco ke kp ka ki kd kcu kn ks kf kl : String × Json) :
    Option Payload :=
  if km.1 = "meta" ∧ kc.1 = "company" ∧ kco.1 = "contact" ∧ ke.1 = "email" ∧
      kp.1 = "phone" ∧ ka.1 = "address" ∧ ki.1 = "incoterms" ∧
      kd.1 = "deliveryDate" ∧ kcu.1 = "currency" ∧ kn.1 = "NDA" ∧
      ks.1 = "shippingPreference" ∧ kf.1 = "files" ∧ kl.1 = "lineItems" then
    (decodeMeta km.2).bind fun m =>
    (asStr kc.2).bind fun company =>
    (asStr kco.2).bind fun contact =>
    (asStr ke.2).bind fun email =>
    (asStr kp.2).bind fun phone =>
    (asStr ka.2).bind fun address =>
    (asStr ki.2).bind fun incoterms =>
    (asStr kd.2).bind fun deliveryDate =>
    (asStr kcu.2).bind fun currency =>
    (asBool kn.2).bind fun nda =>
    (asStr ks.2).bind fun sp =>
    (asArr kf.2).bind fun fjs =>
    (asArr kl.2).bind fun ljs =>
    (decodeList decodeSFile fjs).bind fun fs =>
    (decodeList decodeLineItem ljs).bind fun ls =>
    some
      { meta := m, company := company, contact := contact, email := email
      , phone := phone, address := address, incoterms := incoterms
      , deliveryDate := deliveryDate, currency := currency, NDA := nda
      , shippingPreference := sp, files := fs, lineItems := ls }
  else none

/-- Read back a whole payload from its parsed JSON value. -/
def decodePayload : Json → Option Payload
  | .obj [km, kc, kco, ke, kp, ka, ki, kd, kcu, kn, ks, kf, kl] =>
      decodeMembers km kc kco ke kp ka ki kd kcu kn ks kf kl
  | _ => none

/-- The component state visible to `onSubmit`: the form, the stored
validation errors, and the `submitted` flag. -/
structure AppState where
  form : FormState
  errors : List VKey
  submitted : Bool
deriving DecidableEq, Repr

/-- `onSubmit`: run `validate` (which stores the errors); stop if it
failed.  Otherwise build the payload and await `submitRFQ`; `ok` is whether
that external call resolved (`true`) or rejected (`false`).  Only the
success branch sets `submitted`; the failure branch just alerts. -/
def onSubmit (ok : Bool) (s : AppState) : AppState :=
  let e := validate s.form
  let s1 : AppState := { s with errors := e }
  if e.isEmpty then (if ok then { s1 with submitted := true } else s1) else s1

/-! ## General lemmas about the embedded operations -/

/-- An index-aware map whose callback fixes every position in range is the
identity. -/
lemma mapIdxFrom_id {α : Type} (g : Nat → α → α) :
    ∀ (n : Nat) (l : List α), (∀ i x, i < l.length → g (n + i) x = x) →
      mapIdxFrom g n l = l := by
  intro n l
  induction l generalizing n with
  | nil => intro _; rfl
  | cons x xs ih =>
    intro h
    have h0 : g n x = x := by simpa using h 0 x (by simp)
    have hrest : mapIdxFrom g (n + 1) xs = xs := by
      apply ih
      intro i y hi
      have hy := h (i + 1) y (by simpa using Nat.succ_lt_succ hi)
      rwa [show n + (i + 1) = n + 1 + i by omega] at hy
    simp [mapIdxFrom, h0, hrest]

/-- Folding the `totalQty` reducer equals the plain sum of coerced
quantities. -/
lemma foldl_qty (l : List LineItem) : ∀ init : Int,
    l.foldl (fun s li => s + li.qty.orZero) init =
      init + (l.map fun li => li.qty.orZero).sum := by
  induction l with
  | nil => intro init; simp
  | cons x xs ih =>
    intro init
    simp only [List.foldl_cons, List.map_cons, List.sum_cons, ih]
    ring

/-! ## C1: removeLineItem on a single-element sequence -/

/-- C1 counterexample: the claim says `removeLineItem(index)` is a no-op on
every single-element `lineItems` for every index, but on the default form
(one line item) `removeLineItem 0` deletes the sole item, leaving the
sequence empty. -/
theorem removeLineItem_singleton_not_noop :
    EMPTY_FORM.lineItems.length = 1 ∧
    (removeLineItem 0 EMPTY_FORM).lineItems = [] ∧
    removeLineItem 0 EMPTY_FORM ≠ EMPTY_FORM := by decide

/-- C1 amended: on a single-element sequence, `removeLineItem idx` is a
no-op exactly for the out-of-range indices `idx ≠ 0`; at index 0 it removes
the sole item (the at-least-one invariant is enforced at the call site,
which renders a remove control only when more than one item exists). -/
theorem removeLineItem_singleton_amended (f : FormState) (idx : Int)
    (h : f.lineItems.length = 1) :
    (idx ≠ 0 → removeLineItem idx f = f) ∧ (removeLineItem 0 f).lineItems = [] := by
  obtain ⟨x, hx⟩ := List.length_eq_one.mp h
  constructor
  · intro hidx
    have hne : ((0 : Int) == idx) = false := by
      simp only [beq_eq_false_iff_ne]
      omega
    have hfix : filterIdxFrom (fun i _ => !((i : Int) == idx)) 0 f.lineItems
        = f.lineItems := by
      rw [hx]
      simp [filterIdxFrom, hne]
    unfold removeLineItem
    rw [hfix]
  · unfold removeLineItem
    rw [hx]
    simp [filterIdxFrom]

/-- C1 amended, witnessed at the default form with in- and out-of-range
indices. -/
theorem removeLineItem_singleton_amended_witness :
    (removeLineItem 7 EMPTY_FORM = EMPTY_FORM) ∧
    (removeLineItem 0 EMPTY_FORM).lineItems = [] :=
  ⟨(removeLineItem_singleton_amended EMPTY_FORM 7 (by decide)).1 (by decide),
   (removeLineItem_singleton_amended EMPTY_FORM 7 (by decide)).2⟩

/-! ## C3: validate on the default form -/

/-- C3: `validate` on the initial default form reports exactly the five
violations `company`, `contact`, `email`, `deliveryDate` and
`partName` of line item 0 — and no quantity violation (default qty 1
passes). -/
theorem validate_default_form :
    validate EMPTY_FORM =
      [VKey.company, VKey.contact, VKey.email, VKey.deliveryDate, VKey.liPartName 0] ∧
    VKey.liQty 0 ∉ validate EMPTY_FORM := by decide

/-! ## C5: derived total quantity -/

/-- C5: at every state reachable by any sequence of UI actions the derived
`totalQty` equals the sum of all line items' quantities (missing or
non-numeric counting as 0); in the concrete scenario with quantities 3 and
4 the total is 7, and after removing the first item it is 4. -/
theorem totalQty_spec_and_scenario :
    (∀ acts : List Action,
      totalQty (run acts EMPTY_FORM) = derivedTotalQtySpec (run acts EMPTY_FORM)) ∧
    totalQty (run
      [Action.updateLineItem 0 { qty := some (JSNum.num 3) }, Action.addLineItem,
       Action.updateLineItem 1 { qty := some (JSNum.num 4) }] EMPTY_FORM) = 7 ∧
    totalQty (run
      [Action.updateLineItem 0 { qty := some (JSNum.num 3) }, Action.addLineItem,
       Action.updateLineItem 1 { qty := some (JSNum.num 4) },
       Action.removeLineItem 0] EMPTY_FORM) = 4 := by
  refine ⟨fun acts => ?_, by decide, by decide⟩
  simp [totalQty, derivedTotalQtySpec, foldl_qty]

/-! ## C10: updateLineItem with an out-of-range index -/

/-- C10: for every form state, patch, and index outside
`[0, lineItems.length)`, `updateLineItem` is a no-op on the whole state. -/
theorem updateLineItem_out_of_range (f : FormState) (patch : LineItemPatch) (idx : Int)
    (h : idx < 0 ∨ (f.lineItems.length : Int) ≤ idx) :
    updateLineItem idx patch f = f := by
  unfold updateLineItem
  have hmap : mapIdxFrom
      (fun i li => if (i : Int) = idx then applyPatch patch li else li)
      0 f.lineItems = f.lineItems := by
    apply mapIdxFrom_id
    intro i x hi
    have hne : ¬(((0 + i : Nat) : Int) = idx) := by
      rcases h with h | h <;> omega
    rw [if_neg hne]
  rw [hmap]

/-- C10, witnessed at the default form with a too-large and a negative
index. -/
theorem updateLineItem_out_of_range_witness :
    updateLineItem 5 {} EMPTY_FORM = EMPTY_FORM ∧
    updateLineItem (-1) {} EMPTY_FORM = EMPTY_FORM :=
  ⟨updateLineItem_out_of_range EMPTY_FORM {} 5 (by decide),
   updateLineItem_out_of_range EMPTY_FORM {} (-1) (by decide)⟩

/-! ## C2: enum fields -/

/-- Each UI event keeps the three enum-backed fields inside their rendered
option lists. -/
lemma step_enum (a : Action) (f : FormState)
    (h1 : f.incoterms ∈ INCOTERMS_OPTIONS) (h2 : f.currency ∈ CURRENCY_OPTIONS)
    (h3 : f.shippingPreference ∈ SHIPPING_OPTIONS) :
    (step a f).incoterms ∈ INCOTERMS_OPTIONS ∧
    (step a f).currency ∈ CURRENCY_OPTIONS ∧
    (step a f).shippingPreference ∈ SHIPPING_OPTIONS := by
  cases a <;>
    simp only [step, updateLineItem, addLineItem, removeLineItem, onFilesSelected,
      removeFile] <;>
    try exact ⟨h1, h2, h3⟩
  case setIncoterms v =>
    split
    · next hv => exact ⟨hv, h2, h3⟩
    · exact ⟨h1, h2, h3⟩
  case setCurrency v =>
    split
    · next hv => exact ⟨h1, hv, h3⟩
    · exact ⟨h1, h2, h3⟩
  case setShippingPreference v =>
    split
    · next hv => exact ⟨h1, h2, hv⟩
    · exact ⟨h1, h2, h3⟩
  case reset => decide

/-- The enum invariant holds at every state reachable from a state
satisfying it. -/
lemma run_enum (acts : List Action) : ∀ (f : FormState),
    f.incoterms ∈ INCOTERMS_OPTIONS → f.currency ∈ CURRENCY_OPTIONS →
    f.shippingPreference ∈ SHIPPING_OPTIONS →
    (run acts f).incoterms ∈ INCOTERMS_OPTIONS ∧
    (run acts f).currency ∈ CURRENCY_OPTIONS ∧
    (run acts f).shippingPreference ∈ SHIPPING_OPTIONS := by
  induction acts with
  | nil => intro f h1 h2 h3; exact ⟨h1, h2, h3⟩
  | cons a as ih =>
    intro f h1 h2 h3
    obtain ⟨g1, g2, g3⟩ := step_enum a f h1 h2 h3
    exact ih (step a f) g1 g2 g3

/-- C2 counterexample: the claim names the literal set
`{BestAvailable, Express, Economy, Pickup}` with default `BestAvailable`,
but already the initial state holds the string `"Best Available"`, which is
in neither respect the claimed literal: the code's literals are
`"Best Available"` and `"Abholung"` (not `BestAvailable`/`Pickup`). -/
theorem shippingPreference_literals_differ :
    EMPTY_FORM.shippingPreference ∉
      (["BestAvailable", "Express", "Economy", "Pickup"] : List String) ∧
    EMPTY_FORM.shippingPreference ≠ "BestAvailable" := by decide

/-- C2 amended: every enum field always holds one of the literals its
`<select>` declares — for `shippingPreference` these are
`"Best Available"`, `"Express"`, `"Economy"`, `"Abholung"` — and the
initial value is `"Best Available"`. -/
theorem enum_fields_invariant :
    EMPTY_FORM.shippingPreference = "Best Available" ∧
    ∀ acts : List Action,
      (run acts EMPTY_FORM).incoterms ∈ INCOTERMS_OPTIONS ∧
      (run acts EMPTY_FORM).currency ∈ CURRENCY_OPTIONS ∧
      (run acts EMPTY_FORM).shippingPreference ∈ SHIPPING_OPTIONS := by
  refine ⟨rfl, fun acts => ?_⟩
  exact run_enum acts EMPTY_FORM (by decide) (by decide) (by decide)

/-! ## C4: file acceptance -/

/-- C4: a candidate is accepted iff its lowercased name ends with one of
the nine allow-listed suffixes; the accepted and rejected lists partition
the batch (the rejected list is exactly the complement filter, and together
they are a permutation of the batch); existing files keep their order and
accepted candidates are appended at the end in their given order. -/
theorem addFiles_partition (batch : List FileHandle) (f : FormState) :
    (∀ x : FileHandle, fileAccepted x = true ↔
      ∃ ext ∈ ([".step", ".stp", ".iges", ".igs", ".dxf", ".pdf", ".png", ".jpg",
        ".jpeg"] : List String), jsEndsWith (jsToLower x.name) ext = true) ∧
    batch.filter (fun x => !((batch.filter fileAccepted).contains x)) =
      batch.filter (fun x => !fileAccepted x) ∧
    ((batch.filter fileAccepted) ++ batch.filter (fun x => !fileAccepted x)).Perm batch ∧
    (onFilesSelected batch f).files = f.files ++ batch.filter fileAccepted := by
  refine ⟨?_, ?_, List.filter_append_perm _ _, rfl⟩
  · intro x
    simp [fileAccepted, ACCEPTED_FILES, List.any_eq_true]
  · apply List.filter_congr
    intro x hx
    have hc : (batch.filter fileAccepted).contains x = fileAccepted x := by
      by_cases hacc : fileAccepted x = true
      · rw [hacc]
        exact List.elem_iff.mpr (List.mem_filter.mpr ⟨hx, hacc⟩)
      · rw [show fileAccepted x = false by simpa using hacc]
        apply Bool.eq_false_iff.mpr
        intro hh
        exact hacc (List.mem_filter.mp (List.elem_iff.mp hh)).2
    rw [hc]

/-! ## C6: payload construction -/

/-- C6: `buildPayload` wraps the current timestamp, the constant app name
and version 1 in `meta`, copies every form field, and serialises files to
`{name, size, type}` only — changing a file's content never changes the
payload. -/
theorem buildPayload_shape (t : String) (f : FormState) :
    (buildPayload t f).meta =
      { createdAt := t, app := "ManufacturingRFQApp", version := 1 } ∧
    (buildPayload t f).company = f.company ∧
    (buildPayload t f).contact = f.contact ∧
    (buildPayload t f).email = f.email ∧
    (buildPayload t f).phone = f.phone ∧
    (buildPayload t f).address = f.address ∧
    (buildPayload t f).incoterms = f.incoterms ∧
    (buildPayload t f).deliveryDate = f.deliveryDate ∧
    (buildPayload t f).currency = f.currency ∧
    (buildPayload t f).NDA = f.NDA ∧
    (buildPayload t f).shippingPreference = f.shippingPreference ∧
    (buildPayload t f).lineItems = f.lineItems ∧
    (buildPayload t f).files =
      f.files.map (fun h => { name := h.name, size := h.size, type := h.type }) ∧
    ∀ (h : FileHandle) (c : List Nat),
      toSerializableFiles [{ h with content := c }] = toSerializableFiles [h] := by
  refine ⟨rfl, rfl, rfl, rfl, rfl, rfl, rfl, rfl, rfl, rfl, rfl, rfl, rfl, ?_⟩
  intro h c
  rfl

/-! ## C8: submit failure leaves state untouched -/

/-- C8: a submit attempt never changes the form; a failed external call
leaves the `submitted` flag unchanged; a successful call on a valid form
sets it; and the flag can only become newly true through a successful
call. -/
theorem onSubmit_failure_preserves (ok : Bool) (s : AppState) :
    (onSubmit ok s).form = s.form ∧
    (onSubmit false s).submitted = s.submitted ∧
    (validate s.form = [] → (onSubmit true s).submitted = true) ∧
    ((onSubmit ok s).submitted = true → ok = true ∨ s.submitted = true) := by
  unfold onSubmit
  by_cases he : (validate s.form).isEmpty
  · have hnil : validate s.form = [] := List.isEmpty_iff.mp he
    cases ok <;> simp [he, hnil]
  · have hne : validate s.form ≠ [] := fun hh => he (List.isEmpty_iff.mpr hh)
    cases ok <;> simp [he, hne]

/-! ## C7: JSON round trip -/

/-- Serialised file records decode back to themselves, element by
element. -/
lemma decodeList_encodeSFile (xs : List SFile) :
    decodeList decodeSFile (xs.map encodeSFile) = some xs := by
  induction xs with
  | nil => rfl
  | cons x xs ih => simp [decodeList, decodeSFile, encodeSFile, ih]

/-- A line item whose quantity is an actual number decodes back to
itself. -/
lemma decodeLineItem_encodeLineItem (li : LineItem) (h : li.qty.isNum = true) :
    decodeLineItem (encodeLineItem li) = some li := by
  cases li with
  | mk pn m q tol sur ht no =>
    cases q with
    | num n => rfl
    | nan => simp [JSNum.isNum] at h
    | undef => simp [JSNum.isNum] at h

/-- Serialised line items with numeric quantities decode back to
themselves. -/
lemma decodeList_encodeLineItem (xs : List LineItem)
    (h : xs.all (fun li => li.qty.isNum) = true) :
    decodeList decodeLineItem (xs.map encodeLineItem) = some xs := by
  induction xs with
  | nil => rfl
  | cons x xs ih =>
    rw [List.all_cons, Bool.and_eq_true] at h
    simp [decodeList, decodeLineItem_encodeLineItem x h.1, ih h.2]

/-- C7: serialising the payload built from any form state whose line-item
quantities are actual numbers (the data model's `qty: number`) and parsing
it back reproduces every payload field exactly — in particular every field
other than the time-varying `meta.createdAt`, which is itself preserved by
the round trip of a single payload. -/
theorem buildPayload_json_roundtrip (t : String) (f : FormState)
    (hq : f.lineItems.all (fun li => li.qty.isNum) = true) :
    decodePayload (encodePayload (buildPayload t f)) = some (buildPayload t f) := by
  have h1 := decodeList_encodeSFile (buildPayload t f).files
  have h2 := decodeList_encodeLineItem (buildPayload t f).lineItems hq
  simp [encodePayload, decodePayload, decodeMembers, decodeMeta, asStr, asBool,
    asArr, h1, h2, Option.bind]

/-- C7, witnessed at the default form with a fixed timestamp. -/
theorem buildPayload_json_roundtrip_witness :
    decodePayload (encodePayload (buildPayload "2025-06-01T12:00:00.000Z" EMPTY_FORM))
      = some (buildPayload "2025-06-01T12:00:00.000Z" EMPTY_FORM) :=
  buildPayload_json_roundtrip "2025-06-01T12:00:00.000Z" EMPTY_FORM (by decide)

/-! ## C9: the e-mail pattern -/

/-- The first element surviving `dropWhile` fails the predicate. -/
lemma dropWhile_head_false {α : Type} (p : α → Bool) :
    ∀ (l : List α) (a : α) (t : List α), l.dropWhile p = a :: t → p a = false := by
  intro l
  induction l with
  | nil => intro a t h; simp [List.dropWhile] at h
  | cons x xs ih =>
    intro a t h
    rw [List.dropWhile_cons] at h
    by_cases hx : p x
    · simp [hx] at h
      exact ih a t h
    · simp [hx] at h
      obtain ⟨h1, -⟩ := h
      subst h1
      simpa using hx

/-- An element of `dropLast` splits the list with a non-empty tail after
it. -/
lemma mem_dropLast_decomp {α : Type} {c : α} :
    ∀ {l : List α}, c ∈ l.dropLast → ∃ a b, b ≠ [] ∧ l = a ++ c :: b := by
  intro l
  induction l with
  | nil => intro h; simp at h
  | cons x xs ih =>
    intro h
    cases xs with
    | nil => simp at h
    | cons y ys =>
      rw [List.dropLast_cons₂] at h
      rcases List.mem_cons.mp h with h1 | h2
      · subst h1
        exact ⟨[], y :: ys, by simp, rfl⟩
      · obtain ⟨a, b, hb, heq⟩ := ih h2
        exact ⟨x :: a, b, hb, by simp [heq]⟩

/-- An element of the interior (all but first and last position) splits
the list with non-empty parts on both sides. -/
lemma mem_inner_decomp {c : Char} {d : List Char} (h : c ∈ (d.drop 1).dropLast) :
    ∃ a b, a ≠ [] ∧ b ≠ [] ∧ d = a ++ c :: b := by
  cases d with
  | nil => simp at h
  | cons x t =>
    rw [show (x :: t).drop 1 = t from rfl] at h
    obtain ⟨a, b, hb, heq⟩ := mem_dropLast_decomp h
    exact ⟨x :: a, b, by simp, hb, by simp [heq]⟩

/-- `takeWhile`/`dropWhile` at the separating `@` of a decomposed e-mail
string. -/
lemma takeWhile_at_sep (d : List Char) :
    ∀ l : List Char, (∀ c ∈ l, isEmailChar c = true) →
      ((l ++ '@' :: d).takeWhile fun c => !(c == '@')) = l ∧
      ((l ++ '@' :: d).dropWhile fun c => !(c == '@')) = '@' :: d := by
  intro l
  induction l with
  | nil =>
    intro _
    exact ⟨by simp [List.takeWhile_cons], by simp [List.dropWhile_cons]⟩
  | cons x xs ih =>
    intro hall
    have hx : isEmailChar x = true := hall x (List.mem_cons_self x xs)
    have hxa : (x == '@') = false := by
      cases hb : x == '@' with
      | false => rfl
      | true => simp [isEmailChar, hb] at hx
    obtain ⟨ht, hd⟩ := ih fun c hc => hall c (List.mem_cons_of_mem x hc)
    constructor
    · simp [List.takeWhile_cons, hxa, ht]
    · simp [List.dropWhile_cons, hxa, hd]

/-- The dot of a decomposed domain lies strictly inside the domain part. -/
lemma dot_mem_inner {d1 d2 : List Char} (h1 : d1 ≠ []) (h2 : d2 ≠ []) :
    '.' ∈ ((d1 ++ '.' :: d2).drop 1).dropLast := by
  obtain ⟨x, d1t, rfl⟩ := List.exists_cons_of_ne_nil h1
  obtain ⟨y, d2t, rfl⟩ := List.exists_cons_of_ne_nil h2
  rw [show ((x :: d1t) ++ '.' :: y :: d2t).drop 1 = d1t ++ '.' :: y :: d2t from rfl]
  rw [List.dropLast_append_of_ne_nil _ (by simp)]
  simp [List.dropLast_cons₂]

/-- The executable matcher decides exactly the declarative reading of the
pattern `^[^\s@]+@[^\s@]+\.[^\s@]+$`. -/
lemma emailMatches_iff (s : String) : emailMatches s = true ↔ emailRegexSpec s := by
  unfold emailMatches emailRegexSpec
  constructor
  · intro h
    cases hd : s.data.dropWhile (fun c => !(c == '@')) with
    | nil => rw [hd] at h; simp at h
    | cons a d =>
      rw [hd] at h
      simp only [Bool.and_eq_true] at h
      obtain ⟨⟨⟨hne, hlall⟩, hdall⟩, hdot⟩ := h
      have ha : a = '@' := by
        have := dropWhile_head_false (fun c => !(c == '@')) s.data a d hd
        simpa using this
      have hsplit : s.data = (s.data.takeWhile fun c => !(c == '@')) ++ '@' :: d := by
        conv_lhs => rw [← List.takeWhile_append_dropWhile
          (p := fun c => !(c == '@')) (l := s.data)]
        rw [hd, ha]
      obtain ⟨d1, d2, hd1, hd2, hdeq⟩ := mem_inner_decomp (List.elem_iff.mp hdot)
      refine ⟨s.data.takeWhile fun c => !(c == '@'), d1, d2, ?_, hd1, hd2, ?_, ?_⟩
      · intro hnil
        simp [hnil] at hne
      · intro c hc
        simp only [List.mem_append] at hc
        rcases hc with (hc | hc) | hc
        · exact List.all_eq_true.mp hlall c hc
        · exact List.all_eq_true.mp hdall c (by rw [hdeq]; simp [hc])
        · exact List.all_eq_true.mp hdall c (by rw [hdeq]; simp [hc])
      · conv_lhs => rw [hsplit, hdeq]
  · rintro ⟨l, d1, d2, hl, h1, h2, hall, hs⟩
    have halll : ∀ c ∈ l, isEmailChar c = true := fun c hc =>
      hall c (by simp [hc])
    have halld : ∀ c ∈ d1 ++ '.' :: d2, isEmailChar c = true := by
      intro c hc
      rcases List.mem_append.mp hc with hc | hc
      · exact hall c (by simp [hc])
      · rcases List.mem_cons.mp hc with hc | hc
        · subst hc; decide
        · exact hall c (by simp [hc])
    obtain ⟨ht, hd⟩ := takeWhile_at_sep (d1 ++ '.' :: d2) l halll
    rw [hs, hd, ht]
    simp only [Bool.and_eq_true]
    refine ⟨⟨⟨?_, List.all_eq_true.mpr halll⟩, List.all_eq_true.mpr halld⟩, ?_⟩
    · simpa [List.isEmpty_iff] using hl
    · exact List.elem_iff.mpr (dot_mem_inner h1 h2)

/-- Membership in a one-element conditional error list. -/
lemma mem_ite_singleton {c : Prop} [Decidable c] {x y : VKey} :
    (x ∈ if c then [y] else []) ↔ c ∧ x = y := by
  split <;> simp_all

/-- The per-line-item checks never produce the `email` key. -/
lemma email_notin_lineItemErrors : ∀ (n : Nat) (items : List LineItem),
    VKey.email ∉ lineItemErrors n items := by
  intro n items
  induction items generalizing n with
  | nil => simp [lineItemErrors]
  | cons li rest ih =>
    simp [lineItemErrors, mem_ite_singleton, List.mem_append, ih (n + 1)]

/-- C9: `validate` reports the e-mail violation exactly when the e-mail
field fails the pattern `^[^\s@]+@[^\s@]+\.[^\s@]+$`; in particular
`"not-an-email"` yields the violation and `"a@b.co"` does not. -/
theorem invalidEmail_iff_pattern :
    (∀ f : FormState, VKey.email ∈ validate f ↔ ¬emailRegexSpec f.email) ∧
    VKey.email ∈ validate { EMPTY_FORM with email := "not-an-email" } ∧
    VKey.email ∉ validate { EMPTY_FORM with email := "a@b.co" } := by
  refine ⟨fun f => ?_, by decide, by decide⟩
  rw [← emailMatches_iff]
  simp [validate, List.mem_append, mem_ite_singleton,
    email_notin_lineItemErrors 0 f.lineItems]

/-- A fully valid form: used to witness the success branch of C8. -/
def VALID_FORM : FormState :=
  { EMPTY_FORM with
      company := "Muster GmbH"
    , contact := "Max Muster"
    , email := "max@muster.de"
    , deliveryDate := "2025-06-01"
    , lineItems := [{ DEFAULT_LINE_ITEM with partName := "Wellengehaeuse" }] }

/-- C8, witnessed: on the valid sample form a successful call sets the
flag, and a failed call leaves the untouched form and flag in place. -/
theorem onSubmit_failure_preserves_witness :
    (onSubmit false { form := VALID_FORM, errors := [], submitted := false }).form
      = VALID_FORM ∧
    (onSubmit false { form := VALID_FORM, errors := [], submitted := false }).submitted
      = false ∧
    (onSubmit true { form := VALID_FORM, errors := [], submitted := false }).submitted
      = true :=
  ⟨(onSubmit_failure_preserves false { form := VALID_FORM, errors := [], submitted := false }).1,
   (onSubmit_failure_preserves false { form := VALID_FORM, errors := [], submitted := false }).2.1,
   (onSubmit_failure_preserves true { form := VALID_FORM, errors := [], submitted := false }).2.2.1
     (by decide)⟩

end RFQ
